import Mathlib

/-!
Verification of the Parameter Derivation & Rounding Engine of
`mech_master.py` (electric-furnace parameter pipeline and ladle-geometry
root finder).  The definitions below are shallow embeddings of the source:
exact rational arithmetic stands in for Python's floats in the rounding /
propagation layer, and real arithmetic in the theoretical-formula and
bisection layers.
-/

namespace MechMaster

/-- Python's built-in `round` on an exact value: round to the nearest
integer, resolving exact halves to the even integer (banker's rounding).
This is the rounding primitive used by `round(x/inc)*inc` in the source. -/
def pyRound (q : ℚ) : ℤ :=
  if q - ⌊q⌋ < 1/2 then ⌊q⌋
  else if 1/2 < q - ⌊q⌋ then ⌊q⌋ + 1
  else if ⌊q⌋ % 2 = 0 then ⌊q⌋ else ⌊q⌋ + 1

/-- The source's increment snapping `round(x/inc)*inc` (spec name
`round_to`): lines such as `round(de_th/50)*50` and `round((d*ky)/100)*100`. -/
def round_to (x inc : ℚ) : ℚ :=
  ((pyRound (x / inc) : ℤ) : ℚ) * inc

/-- Modelled from the spec: "nearest multiple of increment ... ties away
from zero".  Spec-side definition only, used to compare the claimed
rounding semantics with the source's `round_to`. -/
def awayRound (q : ℚ) : ℤ :=
  if q - ⌊q⌋ < 1/2 then ⌊q⌋
  else if 1/2 < q - ⌊q⌋ then ⌊q⌋ + 1
  else if 0 ≤ q then ⌊q⌋ + 1 else ⌊q⌋

/-- Modelled from the spec: `round_to` with round-half-away-from-zero
semantics, the behaviour C2 asserts of the source. -/
def round_to_away (x inc : ℚ) : ℚ :=
  ((awayRound (x / inc) : ℤ) : ℚ) * inc

/-- The mutable rounded working state kept in `st.session_state`
(`r_u2`, `r_de`, `r_dc`, `r_di`, `r_hh`, `r_shell_id`, `r_shell_h`). -/
structure RoundedState where
  r_u2 : ℚ
  r_de : ℚ
  r_dc : ℚ
  r_di : ℚ
  r_hh : ℚ
  r_shell_id : ℚ
  r_shell_h : ℚ
  deriving DecidableEq

/-- The initialization block guarded by `st.session_state.f_recalc`
(source lines 199-207), as a function of the theoretical values `u2_th`,
`de_th` it reads and of the coefficients `ky ki kh` and `lining` in scope. -/
def f_recalc_init (ky ki kh lining u2_th de_th : ℚ) : RoundedState :=
  let r_de := round_to de_th 50
  let r_di := round_to (r_de * ki) 100
  let r_hh := round_to (r_de * kh) 100
  { r_u2 := round_to u2_th 1
    r_de := r_de
    r_dc := round_to (r_de * ky) 50
    r_di := r_di
    r_hh := r_hh
    r_shell_id := r_di + 2 * lining
    r_shell_h := r_hh + 2000 }

/-- The `update_furnace_dims` callback (source lines 209-216): the anchor
`De` was edited to `d`; every downstream field is recomputed, `r_u2` is
not touched. -/
def update_furnace_dims (ky ki kh lining d : ℚ) (s : RoundedState) : RoundedState :=
  let r_di := round_to (d * ki) 100
  let r_hh := round_to (d * kh) 100
  { r_u2 := s.r_u2
    r_de := d
    r_dc := round_to (d * ky) 50
    r_di := r_di
    r_hh := r_hh
    r_shell_id := r_di + 2 * lining
    r_shell_h := r_hh + 2000 }

/-- The named fields of the rounded state. -/
inductive FieldName where
  | U2 | De | Dc | Di | Hh | ShellID | ShellH
  deriving DecidableEq

/-- Read one named field of the state. -/
def RoundedState.get (s : RoundedState) : FieldName → ℚ
  | .U2 => s.r_u2
  | .De => s.r_de
  | .Dc => s.r_dc
  | .Di => s.r_di
  | .Hh => s.r_hh
  | .ShellID => s.r_shell_id
  | .ShellH => s.r_shell_h

/-- The spec's `apply_override(field, value)` entry point.  Overriding the
anchor `De` runs `update_furnace_dims` (its widget's `on_change` callback,
line 241).  The `Di`, `ShellID` and `U2` widgets (lines 230, 246, 251)
carry no callback, so an override writes that field and nothing else.
Modelled from the spec: the remaining leaf cases `Dc`, `Hh`, `ShellH` have
no widget in the source; the spec's state machine says a directly
overridden leaf field changes only itself. -/
def apply_override (ky ki kh lining : ℚ) : FieldName → ℚ → RoundedState → RoundedState
  | .De, v, s => update_furnace_dims ky ki kh lining v s
  | .U2, v, s => { s with r_u2 := v }
  | .Dc, v, s => { s with r_dc := v }
  | .Di, v, s => { s with r_di := v }
  | .Hh, v, s => { s with r_hh := v }
  | .ShellID, v, s => { s with r_shell_id := v }
  | .ShellH, v, s => { s with r_shell_h := v }

/-! Basic facts about the rounding primitive. -/

lemma pyRound_eq_floor_or_succ (q : ℚ) :
    pyRound q = ⌊q⌋ ∨ pyRound q = ⌊q⌋ + 1 := by
  unfold pyRound
  split_ifs <;> simp

/-- `pyRound q` is at least as close to `q` as any integer. -/
lemma pyRound_nearest (q : ℚ) (m : ℤ) :
    |q - (pyRound q : ℚ)| ≤ |q - (m : ℚ)| := by
  have hf1 : ((⌊q⌋ : ℤ) : ℚ) ≤ q := Int.floor_le q
  have hf2 : q < (⌊q⌋ : ℚ) + 1 := Int.lt_floor_add_one q
  have hm : (m : ℚ) ≤ ((⌊q⌋ : ℤ) : ℚ) ∨ ((⌊q⌋ : ℤ) : ℚ) + 1 ≤ (m : ℚ) := by
    rcases le_or_lt m ⌊q⌋ with h | h
    · exact Or.inl (by exact_mod_cast h)
    · right
      have : ⌊q⌋ + 1 ≤ m := h
      exact_mod_cast this
  unfold pyRound
  split_ifs with h1 h2 h3 <;>
    rcases hm with hm | hm <;>
    rcases abs_cases (q - ((⌊q⌋ : ℤ) : ℚ)) with ⟨e1, e2⟩ | ⟨e1, e2⟩ <;>
    rcases abs_cases (q - (((⌊q⌋ : ℤ) : ℚ) + 1)) with ⟨f1, f2⟩ | ⟨f1, f2⟩ <;>
    rcases abs_cases (q - (m : ℚ)) with ⟨g1, g2⟩ | ⟨g1, g2⟩ <;>
    simp only [Int.cast_add, Int.cast_one] at * <;>
    linarith

/-- On an exact tie, `pyRound` returns an even integer. -/
lemma pyRound_even_of_tie (q : ℚ) (h : q - ⌊q⌋ = 1/2) :
    pyRound q % 2 = 0 := by
  unfold pyRound
  split_ifs with h1 h2 h3
  · linarith
  · linarith
  · exact h3
  · omega

/-- C1: after an anchor override `apply_override("De", d)` with positive `d`,
the stored rounded state satisfies `Dc = round_to(d*Ky, 50)`,
`Di = round_to(d*Ki, 100)`, `Hh = round_to(d*Kh, 100)`,
`shell_ID = Di + 2*lining`, `shell_H = Hh + 2000`, and the stored `U2`
equals its value from before the override. -/
theorem anchor_override_propagates (ky ki kh lining d : ℚ) (s : RoundedState)
    (hd : 0 < d) :
    (apply_override ky ki kh lining .De d s).r_de = d ∧
    (apply_override ky ki kh lining .De d s).r_dc = round_to (d * ky) 50 ∧
    (apply_override ky ki kh lining .De d s).r_di = round_to (d * ki) 100 ∧
    (apply_override ky ki kh lining .De d s).r_hh = round_to (d * kh) 100 ∧
    (apply_override ky ki kh lining .De d s).r_shell_id
      = (apply_override ky ki kh lining .De d s).r_di + 2 * lining ∧
    (apply_override ky ki kh lining .De d s).r_shell_h
      = (apply_override ky ki kh lining .De d s).r_hh + 2000 ∧
    (apply_override ky ki kh lining .De d s).r_u2 = s.r_u2 :=
  ⟨rfl, rfl, rfl, rfl, rfl, rfl, rfl⟩

/-- Witness for C1 at `ky = 2.7`, `ki = 6.4`, `kh = 2.5`, `lining = 1200`,
`d = 1020`, and a concrete prior state. -/
theorem anchor_override_propagates_witness :
    (0 : ℚ) < 1020 ∧
    ((apply_override (27/10) (32/5) (5/2) 1200 .De 1020
        ⟨203, 1000, 2700, 6400, 2500, 8800, 4500⟩).r_de = 1020 ∧
     (apply_override (27/10) (32/5) (5/2) 1200 .De 1020
        ⟨203, 1000, 2700, 6400, 2500, 8800, 4500⟩).r_dc = round_to (1020 * (27/10)) 50 ∧
     (apply_override (27/10) (32/5) (5/2) 1200 .De 1020
        ⟨203, 1000, 2700, 6400, 2500, 8800, 4500⟩).r_di = round_to (1020 * (32/5)) 100 ∧
     (apply_override (27/10) (32/5) (5/2) 1200 .De 1020
        ⟨203, 1000, 2700, 6400, 2500, 8800, 4500⟩).r_hh = round_to (1020 * (5/2)) 100 ∧
     (apply_override (27/10) (32/5) (5/2) 1200 .De 1020
        ⟨203, 1000, 2700, 6400, 2500, 8800, 4500⟩).r_shell_id
       = (apply_override (27/10) (32/5) (5/2) 1200 .De 1020
        ⟨203, 1000, 2700, 6400, 2500, 8800, 4500⟩).r_di + 2 * 1200 ∧
     (apply_override (27/10) (32/5) (5/2) 1200 .De 1020
        ⟨203, 1000, 2700, 6400, 2500, 8800, 4500⟩).r_shell_h
       = (apply_override (27/10) (32/5) (5/2) 1200 .De 1020
        ⟨203, 1000, 2700, 6400, 2500, 8800, 4500⟩).r_hh + 2000 ∧
     (apply_override (27/10) (32/5) (5/2) 1200 .De 1020
        ⟨203, 1000, 2700, 6400, 2500, 8800, 4500⟩).r_u2
       = (⟨203, 1000, 2700, 6400, 2500, 8800, 4500⟩ : RoundedState).r_u2) :=
  ⟨by norm_num,
   anchor_override_propagates (27/10) (32/5) (5/2) 1200 1020
     ⟨203, 1000, 2700, 6400, 2500, 8800, 4500⟩ (by norm_num)⟩

/-- C2 counterexample: at `x = 125`, `inc = 50` the source's rounding
(Python `round`, ties to even) returns `100`, while the claimed
ties-away-from-zero rounding returns `150`. -/
theorem round_to_tie_not_away :
    round_to 125 50 = 100 ∧ round_to_away 125 50 = 150 ∧
    round_to 125 50 ≠ round_to_away 125 50 := by
  norm_num [round_to, round_to_away, pyRound, awayRound]

/-- C2 amended: for every `x` and every positive increment, `round_to`
returns an integer multiple of the increment that is nearest to `x`, and
it resolves exact ties to the even multiple (Python banker's rounding),
not away from zero. -/
theorem round_to_nearest_ties_even (x inc : ℚ) (hinc : 0 < inc) :
    round_to x inc = ((pyRound (x / inc) : ℤ) : ℚ) * inc ∧
    (∀ m : ℤ, |x - round_to x inc| ≤ |x - (m : ℚ) * inc|) ∧
    (x / inc - ⌊x / inc⌋ = 1/2 → pyRound (x / inc) % 2 = 0) := by
  refine ⟨rfl, ?_, pyRound_even_of_tie _⟩
  intro m
  have key : ∀ k : ℚ, x - k * inc = (x / inc - k) * inc := by
    intro k
    field_simp
    ring
  rw [round_to, key, key ((m : ℚ)), abs_mul, abs_mul, abs_of_pos hinc]
  exact mul_le_mul_of_nonneg_right (pyRound_nearest _ m) hinc.le

/-- Witness for the amended C2 at `x = 125`, `inc = 50`. -/
theorem round_to_nearest_ties_even_witness :
    (0 : ℚ) < 50 ∧
    (round_to 125 50 = ((pyRound ((125 : ℚ) / 50) : ℤ) : ℚ) * 50 ∧
     (∀ m : ℤ, |(125 : ℚ) - round_to 125 50| ≤ |(125 : ℚ) - (m : ℚ) * 50|) ∧
     ((125 : ℚ) / 50 - ⌊(125 : ℚ) / 50⌋ = 1/2 → pyRound ((125 : ℚ) / 50) % 2 = 0)) :=
  ⟨by norm_num, round_to_nearest_ties_even 125 50 (by norm_num)⟩

/-- C4: overriding a leaf field (any field other than the anchor `De`)
writes exactly that field; every other stored field keeps its
pre-override value, and nothing cascades. -/
theorem leaf_override_isolated (ky ki kh lining : ℚ) (f : FieldName) (v : ℚ)
    (s : RoundedState) (hf : f ≠ FieldName.De) :
    (apply_override ky ki kh lining f v s).get f = v ∧
    ∀ g : FieldName, g ≠ f →
      (apply_override ky ki kh lining f v s).get g = s.get g := by
  cases f
  case De => exact absurd rfl hf
  all_goals
    exact ⟨rfl, fun g hg => by cases g <;> first | rfl | exact absurd rfl hg⟩

/-- Witness for C4: a `Dc` override on a concrete state changes `Dc` only. -/
theorem leaf_override_isolated_witness :
    FieldName.Dc ≠ FieldName.De ∧
    ((apply_override (27/10) (32/5) (5/2) 1200 .Dc 2750
        ⟨203, 1000, 2700, 6400, 2500, 8800, 4500⟩).get .Dc = 2750 ∧
     ∀ g : FieldName, g ≠ FieldName.Dc →
       (apply_override (27/10) (32/5) (5/2) 1200 .Dc 2750
          ⟨203, 1000, 2700, 6400, 2500, 8800, 4500⟩).get g
         = (⟨203, 1000, 2700, 6400, 2500, 8800, 4500⟩ : RoundedState).get g) :=
  ⟨by decide,
   leaf_override_isolated (27/10) (32/5) (5/2) 1200 .Dc 2750
     ⟨203, 1000, 2700, 6400, 2500, 8800, 4500⟩ (by decide)⟩

/-- C9 counterexample: at `de_th = 1020`, `Ky = 2.7` the initialization
block stores `Dc = 2700` (it rounds `Ky` times the already-rounded anchor
`r_De = 1000`), which differs from `round_to(Ky * De_theoretical, 50) = 2750`;
and cascading from the initialization's own anchor value reproduces the
initialization's `Dc` exactly. -/
theorem init_dc_base_refuted :
    (f_recalc_init (27/10) (32/5) (5/2) 1200 203 1020).r_de = 1000 ∧
    (f_recalc_init (27/10) (32/5) (5/2) 1200 203 1020).r_dc = 2700 ∧
    round_to ((27/10) * 1020) 50 = 2750 ∧
    (f_recalc_init (27/10) (32/5) (5/2) 1200 203 1020).r_dc
      ≠ round_to ((27/10) * 1020) 50 ∧
    (update_furnace_dims (27/10) (32/5) (5/2) 1200
        ((f_recalc_init (27/10) (32/5) (5/2) 1200 203 1020).r_de)
        (f_recalc_init (27/10) (32/5) (5/2) 1200 203 1020)).r_dc
      = (f_recalc_init (27/10) (32/5) (5/2) 1200 203 1020).r_dc := by
  norm_num [f_recalc_init, update_furnace_dims, round_to, pyRound]

/-- C9 amended: the two computation paths use the same rounding base — the
current (already rounded) anchor value.  Initializing and then cascading
from the initialization's own anchor value reproduces the entire state,
in particular the same `Dc`; the initialization does not round
`Ky * De_theoretical`. -/
theorem init_then_cascade_eq (ky ki kh lining u2_th de_th : ℚ) :
    update_furnace_dims ky ki kh lining
        (f_recalc_init ky ki kh lining u2_th de_th).r_de
        (f_recalc_init ky ki kh lining u2_th de_th)
      = f_recalc_init ky ki kh lining u2_th de_th := rfl

/-! The theoretical calculation block (source lines 186-196), over ℝ. -/

/-- The exact-valued parameter set computed before any rounding. -/
structure TheoreticalParams where
  u2 : ℝ
  i2 : ℝ
  de : ℝ
  dc : ℝ
  di : ℝ
  hh : ℝ
  shell_id : ℝ
  shell_h : ℝ

/-- The theoretical calculation block as a function of the capacity
`p_kva` (kVA), the coefficients and the lining thickness:
`u2_th = ke * p_kva ** (1/3)`, `i2_th = p_kva * 1000 / (1.732 * u2_th)`,
`de_th = sqrt(i2_th / j_val / 0.7854) * 10`, then the proportional and
additive downstream dimensions. -/
noncomputable def theoretical (p_kva ke j_val ky ki kh lining : ℝ) :
    TheoreticalParams :=
  let u2_th := ke * p_kva ^ ((1 : ℝ)/3)
  let i2_th := p_kva * 1000 / (1.732 * u2_th)
  let de_th := Real.sqrt (i2_th / j_val / 0.7854) * 10
  { u2 := u2_th
    i2 := i2_th
    de := de_th
    dc := ky * de_th
    di := ki * de_th
    hh := kh * de_th
    shell_id := ki * de_th + 2 * lining
    shell_h := kh * de_th + 2000 }

/-- Cube-root evaluation used by the C3 counterexample. -/
lemma rpow_1000_third : (1000 : ℝ) ^ ((1 : ℝ)/3) = 10 := by
  have h1000 : (1000 : ℝ) = (10 : ℝ) ^ ((3 : ℕ) : ℝ) := by
    rw [Real.rpow_natCast]
    norm_num
  rw [h1000, ← Real.rpow_mul (by norm_num : (0 : ℝ) ≤ 10)]
  norm_num

/-- C3 counterexample: at `P = 1000`, `Ke = 1`, `J = 1` the secondary
current computed by the source, `1000*1000/(1.732 * U2)`, is not the
claimed `1000*1000/(√3 * U2)`: the source divides by the literal `1.732`,
and `1.732 ≠ √3`. -/
theorem theoretical_i2_not_sqrt3 :
    (theoretical 1000 1 1 1 1 1 0).i2
      ≠ 1000 * 1000 / (Real.sqrt 3 * (theoretical 1000 1 1 1 1 1 0).u2) := by
  have hu2 : (theoretical 1000 1 1 1 1 1 0).u2 = 10 := by
    show (1 : ℝ) * (1000 : ℝ) ^ ((1 : ℝ)/3) = 10
    rw [rpow_1000_third]
    norm_num
  have hsqrt : Real.sqrt 3 ≠ 1.732 := by
    intro h
    have h3 : (3 : ℝ) = (1.732 : ℝ) ^ 2 := by
      rw [← h, Real.sq_sqrt (by norm_num : (0 : ℝ) ≤ 3)]
    norm_num at h3
  have hi2 : (theoretical 1000 1 1 1 1 1 0).i2 = 1000 * 1000 / (1.732 * 10) := by
    show (1000 : ℝ) * 1000 / (1.732 * ((1 : ℝ) * (1000 : ℝ) ^ ((1 : ℝ)/3))) = _
    rw [rpow_1000_third]
    norm_num
  rw [hi2, hu2]
  intro h
  have h1732 : (1.732 : ℝ) * 10 = Real.sqrt 3 * 10 := by
    have hpos1 : (0 : ℝ) < 1.732 * 10 := by norm_num
    have hpos2 : (0 : ℝ) < Real.sqrt 3 * 10 := by
      have := Real.sqrt_pos.mpr (by norm_num : (0 : ℝ) < 3)
      linarith
    have hne1 : (1.732 : ℝ) * 10 ≠ 0 := ne_of_gt hpos1
    have hne2 : Real.sqrt 3 * 10 ≠ 0 := ne_of_gt hpos2
    field_simp at h
    linarith
  have : Real.sqrt 3 = 1.732 := by linarith
  exact hsqrt this

/-- C3 amended: for all inputs, the theoretical calculator returns exactly
`U2 = Ke * P^(1/3)`, `I2 = 1000 * P / (1.732 * U2)`,
`De = 10 * sqrt(I2 / (J * 0.7854))`, `Dc = Ky * De`, `Di = Ki * De`,
`Hh = Kh * De`, `shell_ID = Di + 2 * lining`, `shell_H = Hh + 2000` — the
source uses the numeric literals `1.732` and `0.7854` in place of the
claimed `√3` and `π/4`. -/
theorem theoretical_formulas (p_kva ke j_val ky ki kh lining : ℝ) :
    (theoretical p_kva ke j_val ky ki kh lining).u2 = ke * p_kva ^ ((1 : ℝ)/3) ∧
    (theoretical p_kva ke j_val ky ki kh lining).i2
      = 1000 * p_kva / (1.732 * (theoretical p_kva ke j_val ky ki kh lining).u2) ∧
    (theoretical p_kva ke j_val ky ki kh lining).de
      = 10 * Real.sqrt ((theoretical p_kva ke j_val ky ki kh lining).i2
          / (j_val * 0.7854)) ∧
    (theoretical p_kva ke j_val ky ki kh lining).dc
      = ky * (theoretical p_kva ke j_val ky ki kh lining).de ∧
    (theoretical p_kva ke j_val ky ki kh lining).di
      = ki * (theoretical p_kva ke j_val ky ki kh lining).de ∧
    (theoretical p_kva ke j_val ky ki kh lining).hh
      = kh * (theoretical p_kva ke j_val ky ki kh lining).de ∧
    (theoretical p_kva ke j_val ky ki kh lining).shell_id
      = (theoretical p_kva ke j_val ky ki kh lining).di + 2 * lining ∧
    (theoretical p_kva ke j_val ky ki kh lining).shell_h
      = (theoretical p_kva ke j_val ky ki kh lining).hh + 2000 := by
  refine ⟨rfl, ?_, ?_, rfl, rfl, rfl, rfl, rfl⟩
  · show p_kva * 1000 / (1.732 * (ke * p_kva ^ ((1 : ℝ)/3)))
      = 1000 * p_kva / (1.732 * (ke * p_kva ^ ((1 : ℝ)/3)))
    rw [mul_comm p_kva 1000]
  · show Real.sqrt (p_kva * 1000 / (1.732 * (ke * p_kva ^ ((1 : ℝ)/3)))
        / j_val / 0.7854) * 10
      = 10 * Real.sqrt (p_kva * 1000 / (1.732 * (ke * p_kva ^ ((1 : ℝ)/3)))
        / (j_val * 0.7854))
    rw [div_div, mul_comm]

/-! The ladle geometry root finder (source lines 327-349). -/

/-- The forward cavity-volume formula `calc_vol(h)` of the ladle designer:
`h_liq = h - t_bot/1000 - freeboard/1000`, `r_top = (ar*h)/2`,
`r_bot = r_top - h*tan_a`, `r_liq_top = r_top - t_wall/1000`,
`r_liq_bot = (r_bot + t_bot/1000*tan_a) - t_wall/1000`, each of the three
degeneracy guards returning `0`, else the frustum volume
`(1/3)*pi*h_liq*(r_liq_bot^2 + r_liq_top^2 + r_liq_bot*r_liq_top)`. -/
noncomputable def calc_vol (ar tan_a t_wall t_bot freeboard h : ℝ) : ℝ :=
  if h - t_bot/1000 - freeboard/1000 ≤ 0 then 0
  else if ar * h / 2 - h * tan_a ≤ 0 then 0
  else if (ar * h / 2 - h * tan_a + t_bot/1000 * tan_a) - t_wall/1000 ≤ 0 then 0
  else (1/3) * Real.pi * (h - t_bot/1000 - freeboard/1000) *
    (((ar * h / 2 - h * tan_a + t_bot/1000 * tan_a) - t_wall/1000) ^ 2
      + (ar * h / 2 - t_wall/1000) ^ 2
      + ((ar * h / 2 - h * tan_a + t_bot/1000 * tan_a) - t_wall/1000)
        * (ar * h / 2 - t_wall/1000))

/-- One pass of the bisection loop body: `mid = (low+high)/2`;
`if calc_vol(mid) < vol: low = mid else high = mid`. -/
noncomputable def bisectStep (f : ℝ → ℝ) (vol : ℝ) (p : ℝ × ℝ) : ℝ × ℝ :=
  if f ((p.1 + p.2) / 2) < vol then ((p.1 + p.2) / 2, p.2)
  else (p.1, (p.1 + p.2) / 2)

/-- The bisection loop run for `n` passes from the bracket `p`. -/
noncomputable def bisectIter (f : ℝ → ℝ) (vol : ℝ) : ℕ → ℝ × ℝ → ℝ × ℝ
  | 0, p => p
  | n + 1, p => bisectIter f vol n (bisectStep f vol p)

/-- The solver: 50 bisection passes over the fixed bracket `[0.5, 10]`,
returning the upper end (`H_final = high`). -/
noncomputable def solve_height (ar tan_a t_wall t_bot freeboard vol : ℝ) : ℝ :=
  (bisectIter (calc_vol ar tan_a t_wall t_bot freeboard) vol 50 (0.5, 10)).2

lemma bisectIter_succ (f : ℝ → ℝ) (vol : ℝ) (n : ℕ) (p : ℝ × ℝ) :
    bisectIter f vol (n + 1) p = bisectIter f vol n (bisectStep f vol p) := rfl

/-- A bisection pass stays inside the bracket it was given. -/
lemma bisectStep_bounds (f : ℝ → ℝ) (vol : ℝ) (p : ℝ × ℝ) (hp : p.1 ≤ p.2) :
    p.1 ≤ (bisectStep f vol p).1 ∧
    (bisectStep f vol p).1 ≤ (bisectStep f vol p).2 ∧
    (bisectStep f vol p).2 ≤ p.2 := by
  unfold bisectStep
  split_ifs <;> dsimp <;> refine ⟨?_, ?_, ?_⟩ <;> linarith

/-- The bisection loop stays inside the initial bracket. -/
lemma bisectIter_bounds (f : ℝ → ℝ) (vol : ℝ) (n : ℕ) :
    ∀ p : ℝ × ℝ, p.1 ≤ p.2 →
      p.1 ≤ (bisectIter f vol n p).1 ∧
      (bisectIter f vol n p).1 ≤ (bisectIter f vol n p).2 ∧
      (bisectIter f vol n p).2 ≤ p.2 := by
  induction n with
  | zero => exact fun p hp => ⟨le_refl _, hp, le_refl _⟩
  | succ n ih =>
    intro p hp
    have hs := bisectStep_bounds f vol p hp
    have hi := ih (bisectStep f vol p) hs.2.1
    rw [bisectIter_succ]
    exact ⟨hs.1.trans hi.1, hi.2.1, hi.2.2.trans hs.2.2⟩

/-- A bisection pass halves the bracket width. -/
lemma bisectStep_width (f : ℝ → ℝ) (vol : ℝ) (p : ℝ × ℝ) :
    (bisectStep f vol p).2 - (bisectStep f vol p).1 = (p.2 - p.1) / 2 := by
  unfold bisectStep
  split_ifs <;> dsimp <;> ring

/-- After `n` passes the bracket width is the initial width over `2 ^ n`. -/
lemma bisectIter_width (f : ℝ → ℝ) (vol : ℝ) (n : ℕ) :
    ∀ p : ℝ × ℝ,
      (bisectIter f vol n p).2 - (bisectIter f vol n p).1
        = (p.2 - p.1) / 2 ^ n := by
  induction n with
  | zero =>
    intro p
    show p.2 - p.1 = (p.2 - p.1) / 2 ^ 0
    norm_num
  | succ n ih =>
    intro p
    rw [bisectIter_succ, ih, bisectStep_width]
    rw [div_div]
    ring_nf

/-- The upper end of the bracket is only ever replaced by a midpoint whose
volume is at least the target. -/
lemma bisectIter_high_mem (f : ℝ → ℝ) (vol c : ℝ) (n : ℕ) :
    ∀ p : ℝ × ℝ, (p.2 = c ∨ vol ≤ f p.2) →
      ((bisectIter f vol n p).2 = c ∨ vol ≤ f (bisectIter f vol n p).2) := by
  induction n with
  | zero => exact fun p hp => hp
  | succ n ih =>
    intro p hp
    rw [bisectIter_succ]
    refine ih (bisectStep f vol p) ?_
    unfold bisectStep
    split_ifs with hb
    · exact hp
    · exact Or.inr (not_lt.mp hb)

/-- The bracketing invariant: volume below target at the lower end, at or
above target at the upper end. -/
lemma bisectIter_bracket (f : ℝ → ℝ) (vol : ℝ) (n : ℕ) :
    ∀ p : ℝ × ℝ, f p.1 < vol → vol ≤ f p.2 →
      f (bisectIter f vol n p).1 < vol ∧ vol ≤ f (bisectIter f vol n p).2 := by
  induction n with
  | zero => exact fun p h1 h2 => ⟨h1, h2⟩
  | succ n ih =>
    intro p h1 h2
    rw [bisectIter_succ]
    refine ih (bisectStep f vol p) ?_ ?_ <;> unfold bisectStep <;>
      split_ifs with hb <;> first | exact hb | exact h1 | exact h2 |
        exact not_lt.mp hb

/-- If the target exceeds the volume everywhere in the bracket, every pass
moves the lower end up and the upper end never changes. -/
lemma bisectIter_unreachable (f : ℝ → ℝ) (vol : ℝ)
    (hf : ∀ h : ℝ, (0.5 : ℝ) ≤ h → h ≤ 10 → f h < vol) (n : ℕ) :
    ∀ p : ℝ × ℝ, (0.5 : ℝ) ≤ p.1 → p.1 ≤ p.2 → p.2 = 10 →
      (bisectIter f vol n p).2 = 10 := by
  induction n with
  | zero => exact fun p _ _ h3 => h3
  | succ n ih =>
    intro p hp1 hp2 hp3
    rw [bisectIter_succ]
    have hmid1 : (0.5 : ℝ) ≤ (p.1 + p.2) / 2 := by linarith
    have hmid2 : (p.1 + p.2) / 2 ≤ 10 := by rw [← hp3]; linarith
    have hb : f ((p.1 + p.2) / 2) < vol := hf _ hmid1 hmid2
    have hstep : bisectStep f vol p = ((p.1 + p.2) / 2, p.2) := by
      unfold bisectStep
      rw [if_pos hb]
    rw [hstep]
    exact ih _ hmid1 (by dsimp; linarith) hp3

/-- Two bisection runs on the same function with ordered targets keep
their brackets equal or fully ordered. -/
lemma bisectIter_le (f : ℝ → ℝ) (v1 v2 : ℝ) (h12 : v1 ≤ v2) (n : ℕ) :
    ∀ p q : ℝ × ℝ, p.1 ≤ p.2 → q.1 ≤ q.2 → (p = q ∨ p.2 ≤ q.1) →
      (bisectIter f v1 n p = bisectIter f v2 n q ∨
        (bisectIter f v1 n p).2 ≤ (bisectIter f v2 n q).1) := by
  induction n with
  | zero => exact fun p q _ _ hpq => hpq
  | succ n ih =>
    intro p q hp hq hpq
    rw [bisectIter_succ, bisectIter_succ]
    have hbp := bisectStep_bounds f v1 p hp
    have hbq := bisectStep_bounds f v2 q hq
    rcases hpq with rfl | hle
    · by_cases hb2 : f ((p.1 + p.2) / 2) < v2
      · by_cases hb1 : f ((p.1 + p.2) / 2) < v1
        · have hstep : bisectStep f v1 p = bisectStep f v2 p := by
            unfold bisectStep
            rw [if_pos hb1, if_pos hb2]
          rw [hstep]
          exact ih _ _ hbq.2.1 hbq.2.1 (Or.inl rfl)
        · have hstep1 : bisectStep f v1 p = (p.1, (p.1 + p.2) / 2) := by
            unfold bisectStep
            rw [if_neg hb1]
          have hstep2 : bisectStep f v2 p = ((p.1 + p.2) / 2, p.2) := by
            unfold bisectStep
            rw [if_pos hb2]
          refine ih _ _ hbp.2.1 hbq.2.1 (Or.inr ?_)
          rw [hstep1, hstep2]
      · have hb1 : ¬ f ((p.1 + p.2) / 2) < v1 := fun h => hb2 (h.trans_le h12)
        have hstep : bisectStep f v1 p = bisectStep f v2 p := by
          unfold bisectStep
          rw [if_neg hb1, if_neg hb2]
        rw [hstep]
        exact ih _ _ hbq.2.1 hbq.2.1 (Or.inl rfl)
    · refine ih _ _ hbp.2.1 hbq.2.1 (Or.inr ?_)
      calc (bisectStep f v1 p).2 ≤ p.2 := hbp.2.2
        _ ≤ q.1 := hle
        _ ≤ (bisectStep f v2 q).1 := hbq.1

/-- Helper: in the degenerate geometry `ar = 1`, `tan_a = 1` (taper as
steep as the radius growth) every candidate height yields volume 0. -/
lemma calc_vol_degenerate (h : ℝ) : calc_vol 1 1 160 230 300 h = 0 := by
  unfold calc_vol
  split_ifs with h1 h2 h3
  · rfl
  · rfl
  · rfl
  · exfalso
    have a1 := not_le.mp h1
    have a2 := not_le.mp h2
    linarith

/-- Helper: in the degenerate geometry the solver returns the upper bound
for every positive target. -/
lemma solve_height_degenerate (v : ℝ) (hv : 0 < v) :
    solve_height 1 1 160 230 300 v = 10 := by
  unfold solve_height
  refine bisectIter_unreachable _ v ?_ 50 (0.5, 10) (by norm_num) (by norm_num) rfl
  intro h _ _
  rw [calc_vol_degenerate]
  exact hv

/-- C6: if the target volume exceeds the cavity volume achievable anywhere
in the bracket, the solver returns the upper bracket bound 10 m; it is a
total function, so no error is signalled. -/
theorem solve_height_unreachable (ar tan_a t_wall t_bot freeboard vol : ℝ)
    (hun : ∀ h : ℝ, (0.5 : ℝ) ≤ h → h ≤ 10 →
      calc_vol ar tan_a t_wall t_bot freeboard h < vol) :
    solve_height ar tan_a t_wall t_bot freeboard vol = 10 :=
  bisectIter_unreachable _ vol hun 50 (0.5, 10) (by norm_num) (by norm_num) rfl

/-- Witness for C6: in the degenerate geometry every bracketed height has
volume 0 < 4.5, and the solver returns 10. -/
theorem solve_height_unreachable_witness :
    (∀ h : ℝ, (0.5 : ℝ) ≤ h → h ≤ 10 → calc_vol 1 1 160 230 300 h < 4.5) ∧
    solve_height 1 1 160 230 300 4.5 = 10 := by
  have hyp : ∀ h : ℝ, (0.5 : ℝ) ≤ h → h ≤ 10 →
      calc_vol 1 1 160 230 300 h < 4.5 := by
    intro h _ _
    rw [calc_vol_degenerate]
    norm_num
  exact ⟨hyp, solve_height_unreachable 1 1 160 230 300 4.5 hyp⟩

/-- C8: `calc_vol` is total over all candidate heights: whenever the
liquid column height, the bottom outer radius, or the cavity bottom
radius computed at the height is non-positive, it returns 0 — not an
error — and 0 is below every positive target, so bisection still steers
toward larger heights. -/
theorem calc_vol_guard_zero (ar tan_a t_wall t_bot freeboard h : ℝ)
    (hg : h - t_bot/1000 - freeboard/1000 ≤ 0 ∨
      ar * h / 2 - h * tan_a ≤ 0 ∨
      (ar * h / 2 - h * tan_a + t_bot/1000 * tan_a) - t_wall/1000 ≤ 0) :
    calc_vol ar tan_a t_wall t_bot freeboard h = 0 ∧
    ∀ vol : ℝ, 0 < vol → calc_vol ar tan_a t_wall t_bot freeboard h < vol := by
  have h0 : calc_vol ar tan_a t_wall t_bot freeboard h = 0 := by
    unfold calc_vol
    split_ifs with g1 g2 g3
    · rfl
    · rfl
    · rfl
    · rcases hg with hg | hg | hg
      · exact absurd hg g1
      · exact absurd hg g2
      · exact absurd hg g3
  refine ⟨h0, fun vol hv => ?_⟩
  rw [h0]
  exact hv

/-- Witness for C8 at height 0.4m with the concrete ladle inputs: the
liquid column height is negative there. -/
theorem calc_vol_guard_zero_witness :
    ((0.4 : ℝ) - 230/1000 - 300/1000 ≤ 0 ∨
      (1 : ℝ) * 0.4 / 2 - 0.4 * 1 ≤ 0 ∨
      ((1 : ℝ) * 0.4 / 2 - 0.4 * 1 + 230/1000 * 1) - 160/1000 ≤ 0) ∧
    (calc_vol 1 1 160 230 300 0.4 = 0 ∧
     ∀ vol : ℝ, 0 < vol → calc_vol 1 1 160 230 300 0.4 < vol) :=
  ⟨Or.inl (by norm_num),
   calc_vol_guard_zero 1 1 160 230 300 0.4 (Or.inl (by norm_num))⟩

/-- C10: the returned height always lies in the bracket [0.5, 10], and it
either equals the upper bound 10 (never lowered) or carries a cavity
volume at least the target: the solver returns the over-volume end of the
final bracket. -/
theorem solve_height_range_over (ar tan_a t_wall t_bot freeboard vol : ℝ) :
    (0.5 : ℝ) ≤ solve_height ar tan_a t_wall t_bot freeboard vol ∧
    solve_height ar tan_a t_wall t_bot freeboard vol ≤ 10 ∧
    (solve_height ar tan_a t_wall t_bot freeboard vol = 10 ∨
      vol ≤ calc_vol ar tan_a t_wall t_bot freeboard
        (solve_height ar tan_a t_wall t_bot freeboard vol)) := by
  have hb := bisectIter_bounds (calc_vol ar tan_a t_wall t_bot freeboard)
    vol 50 (0.5, 10) (by norm_num)
  have hm := bisectIter_high_mem (calc_vol ar tan_a t_wall t_bot freeboard)
    vol 10 50 (0.5, 10) (Or.inl rfl)
  exact ⟨le_trans hb.1 hb.2.1, hb.2.2, hm⟩

/-- C7 counterexample: in the degenerate geometry the solver returns 10
for both target 1 and target 2, so `solve_height` is not strictly
increasing in the target volume. -/
theorem solve_height_not_strictmono :
    (1 : ℝ) < 2 ∧
    solve_height 1 1 160 230 300 1 = solve_height 1 1 160 230 300 2 := by
  refine ⟨by norm_num, ?_⟩
  rw [solve_height_degenerate 1 (by norm_num),
    solve_height_degenerate 2 (by norm_num)]

/-- C7 amended: `solve_height` is monotone non-decreasing in the target
volume for fixed geometry inputs; strictness fails because a 50-pass
bisection takes values on a finite grid, so distinct targets can return
the same height. -/
theorem solve_height_mono (ar tan_a t_wall t_bot freeboard V1 V2 : ℝ)
    (h0 : 0 < V1) (h12 : V1 ≤ V2) :
    solve_height ar tan_a t_wall t_bot freeboard V1
      ≤ solve_height ar tan_a t_wall t_bot freeboard V2 := by
  have h := bisectIter_le (calc_vol ar tan_a t_wall t_bot freeboard)
    V1 V2 h12 50 (0.5, 10) (0.5, 10) (by norm_num) (by norm_num) (Or.inl rfl)
  rcases h with he | hle
  · exact le_of_eq (congrArg Prod.snd he)
  · have hb := bisectIter_bounds (calc_vol ar tan_a t_wall t_bot freeboard)
      V2 50 (0.5, 10) (by norm_num)
    exact hle.trans hb.2.1

/-- Witness for the amended C7 at the degenerate geometry and targets 1, 2. -/
theorem solve_height_mono_witness :
    (0 : ℝ) < 1 ∧ (1 : ℝ) ≤ 2 ∧
    solve_height 1 1 160 230 300 1 ≤ solve_height 1 1 160 230 300 2 :=
  ⟨by norm_num, by norm_num,
   solve_height_mono 1 1 160 230 300 1 2 (by norm_num) (by norm_num)⟩

/-- C5 counterexample: for an unreachable target (degenerate geometry,
target 1 m^3) the solver returns 10, where the forward volume is 0: the
round-trip error is 1, far beyond the relative tolerance 1e-3 * 1. -/
theorem roundtrip_fails_unreachable :
    (1 : ℝ)/1000 * 1
      < |calc_vol 1 1 160 230 300 (solve_height 1 1 160 230 300 1) - 1| := by
  rw [solve_height_degenerate 1 (by norm_num), calc_vol_degenerate,
    zero_sub, abs_neg, abs_one]
  norm_num

/-- C5 amended: whenever the target is reachable inside the bracket (the
forward volume is below the target at 0.5 m and at or above it at 10 m)
and the forward volume varies by at most `V/1000` over any interval of
the final bracket width `9.5 * 2^-50`, feeding the solver's height back
into the forward formula reproduces the target within relative tolerance
`1e-3 * V`.  (The unreachable case of C6 breaks the unconditional claim.) -/
theorem solve_height_roundtrip (ar tan_a t_wall t_bot freeboard V : ℝ)
    (hlo : calc_vol ar tan_a t_wall t_bot freeboard 0.5 < V)
    (hhi : V ≤ calc_vol ar tan_a t_wall t_bot freeboard 10)
    (hmod : ∀ x y : ℝ, (0.5 : ℝ) ≤ x → x ≤ y → y ≤ 10 → y - x ≤ 9.5/2^50 →
      calc_vol ar tan_a t_wall t_bot freeboard y
        - calc_vol ar tan_a t_wall t_bot freeboard x ≤ V/1000) :
    |calc_vol ar tan_a t_wall t_bot freeboard
        (solve_height ar tan_a t_wall t_bot freeboard V) - V| ≤ V/1000 := by
  have hb := bisectIter_bounds (calc_vol ar tan_a t_wall t_bot freeboard)
    V 50 (0.5, 10) (by norm_num)
  have hw := bisectIter_width (calc_vol ar tan_a t_wall t_bot freeboard)
    V 50 (0.5, 10)
  have hbr := bisectIter_bracket (calc_vol ar tan_a t_wall t_bot freeboard)
    V 50 (0.5, 10) hlo hhi
  have hwid : (bisectIter (calc_vol ar tan_a t_wall t_bot freeboard)
        V 50 (0.5, 10)).2
      - (bisectIter (calc_vol ar tan_a t_wall t_bot freeboard)
        V 50 (0.5, 10)).1 ≤ 9.5/2^50 := by
    rw [hw]
    norm_num
  have hkey := hmod _ _ hb.1 hb.2.1 hb.2.2 hwid
  have h2 : 0 ≤ calc_vol ar tan_a t_wall t_bot freeboard
      (solve_height ar tan_a t_wall t_bot freeboard V) - V :=
    sub_nonneg.mpr hbr.2
  rw [abs_of_nonneg h2]
  have h1 := hbr.1
  unfold solve_height
  linarith

/-- Helper: with `ar = 1`, no taper and zero thickness and freeboard the
forward volume is the cone formula `pi * t^3 / 4` at every positive height. -/
lemma calc_vol_simple (t : ℝ) (ht : 0 < t) :
    calc_vol 1 0 0 0 0 t = Real.pi * t ^ 3 / 4 := by
  have g1 : ¬(t - 0/1000 - 0/1000 ≤ 0) := by
    push_neg
    simpa using ht
  have g2 : ¬((1 : ℝ) * t / 2 - t * 0 ≤ 0) := by
    push_neg
    simp only [one_mul, mul_zero, sub_zero]
    linarith
  have g3 : ¬(((1 : ℝ) * t / 2 - t * 0 + 0/1000 * 0) - 0/1000 ≤ 0) := by
    push_neg
    simp only [one_mul, mul_zero, add_zero, zero_div, sub_zero]
    linarith
  unfold calc_vol
  rw [if_neg g1, if_neg g2, if_neg g3]
  ring

/-- Helper: round-trip lower-bracket hypothesis at the simple geometry. -/
lemma calc_vol_simple_lo : calc_vol 1 0 0 0 0 0.5 < 1 := by
  rw [calc_vol_simple 0.5 (by norm_num)]
  nlinarith [Real.pi_lt_d2]

/-- Helper: round-trip upper-bracket hypothesis at the simple geometry. -/
lemma calc_vol_simple_hi : (1 : ℝ) ≤ calc_vol 1 0 0 0 0 10 := by
  rw [calc_vol_simple 10 (by norm_num)]
  nlinarith [Real.pi_gt_three]

/-- Helper: the simple-geometry forward volume moves by at most 1/1000
over any final-bracket-width interval inside [0.5, 10]. -/
lemma calc_vol_simple_mod : ∀ x y : ℝ, (0.5 : ℝ) ≤ x → x ≤ y → y ≤ 10 →
    y - x ≤ 9.5/2^50 →
    calc_vol 1 0 0 0 0 y - calc_vol 1 0 0 0 0 x ≤ 1/1000 := by
  intro x y hx hxy hy hw
  rw [calc_vol_simple x (by linarith), calc_vol_simple y (by linarith)]
  have hx0 : (0 : ℝ) ≤ x := by linarith
  have hy0 : (0 : ℝ) ≤ y := by linarith
  have hx10 : x ≤ 10 := by linarith
  have hpi : Real.pi ≤ 4 := by linarith [Real.pi_lt_d2]
  have hy2 : y ^ 2 ≤ 100 := by nlinarith
  have hx2 : x ^ 2 ≤ 100 := by nlinarith
  have hxy2 : y * x ≤ 100 := by nlinarith
  have hq : y ^ 2 + y * x + x ^ 2 ≤ 300 := by linarith
  have hq0 : 0 ≤ y ^ 2 + y * x + x ^ 2 := by nlinarith [mul_nonneg hy0 hx0]
  have hw0 : 0 ≤ y - x := by linarith
  have hprod : (y - x) * (y ^ 2 + y * x + x ^ 2) ≤ (9.5/2^50) * 300 :=
    mul_le_mul hw hq hq0 (by norm_num)
  have h1 : Real.pi * y ^ 3 / 4 - Real.pi * x ^ 3 / 4
      = Real.pi / 4 * ((y - x) * (y ^ 2 + y * x + x ^ 2)) := by
    ring
  have h2 : Real.pi / 4 * ((y - x) * (y ^ 2 + y * x + x ^ 2))
      ≤ 1 * ((9.5/2^50) * 300) :=
    mul_le_mul (by linarith) hprod (mul_nonneg hw0 hq0) (by norm_num)
  have h3 : (1 : ℝ) * ((9.5/2^50) * 300) ≤ 1/1000 := by norm_num
  linarith

/-- Witness for the amended C5 at the simple geometry with target 1 m^3:
all three hypotheses hold and the round-trip is within tolerance. -/
theorem solve_height_roundtrip_witness :
    calc_vol 1 0 0 0 0 0.5 < 1 ∧
    (1 : ℝ) ≤ calc_vol 1 0 0 0 0 10 ∧
    (∀ x y : ℝ, (0.5 : ℝ) ≤ x → x ≤ y → y ≤ 10 → y - x ≤ 9.5/2^50 →
      calc_vol 1 0 0 0 0 y - calc_vol 1 0 0 0 0 x ≤ 1/1000) ∧
    |calc_vol 1 0 0 0 0 (solve_height 1 0 0 0 0 1) - 1| ≤ 1/1000 :=
  ⟨calc_vol_simple_lo, calc_vol_simple_hi, calc_vol_simple_mod,
   solve_height_roundtrip 1 0 0 0 0 1
     calc_vol_simple_lo calc_vol_simple_hi calc_vol_simple_mod⟩

end MechMaster
